import Mathlib

/-!
Verification of the hare AMQP client layer.

This file gives a shallow embedding of the hare repository (connection.py,
consumer.py, consumer_process.py, publisher.py) and proves the specified
properties about it:

* the connection identity map and reference-counted close in
  `AMQPConnection.__init__` / `AMQPConnection.close`;
* the normalized connection signature `AMQPConnection._connection_signature`;
* the disabled-mode behaviour (`ENABLE_MQ` false);
* the single-slot message handoff of `Consumer.message_iterator`;
* the iteration limit of `Consumer.message_iterator`;
* the fault-tolerance policy of `ConsumerProcess.run`;
* the once-per-process queue declaration of `Consumer.__init__`.

Python objects that matter only by identity (physical `amqp.Connection`
objects, channels, delivery tags) are modelled as natural-number ids drawn
from fresh counters; the observable side effects (which connections and
channels were closed, what was published, declared or acknowledged) are
modelled as explicit logs threaded through the state.
-/


/-- Values that can appear in the keyword-argument dictionary handed to
`amqp.Connection`: the hare code passes strings (host, userid, password,
virtual_host) and booleans (insist). -/
inductive PyVal where
  | str (s : String)
  | bool (b : Bool)
deriving DecidableEq

/-- A connection signature: the flattened dictionary (tuple of key/value
pairs sorted by key) returned by `AMQPConnection._connection_signature`. -/
abbrev Sig := List (String × PyVal)

/-! Registry state: `AMQPConnection._active_connections` maps a connection
signature to a pair `[retain_count, amqp.Connection]`.  We model the map as
an association list in insertion order (Python dict order) and the physical
connection as a `Nat` id. -/

/-- Lookup in `_active_connections`: returns the `(retain_count, connection id)`
pair stored for `sig`, if present. -/
def lookupSig (sig : Sig) : List (Sig × Nat × Nat) → Option (Nat × Nat)
  | [] => none
  | (s, c, i) :: t => if s = sig then some (c, i) else lookupSig sig t

/-- Overwrite the retain count stored for `sig` (models
`_active_connections[sig][0] = c`). -/
def setRefcount (sig : Sig) (c : Nat) : List (Sig × Nat × Nat) → List (Sig × Nat × Nat)
  | [] => []
  | (s, c', i) :: t => if s = sig then (s, c, i) :: t else (s, c', i) :: setRefcount sig c t

/-- Delete the entry for `sig` (models `del _active_connections[sig]`). -/
def removeSig (sig : Sig) : List (Sig × Nat × Nat) → List (Sig × Nat × Nat)
  | [] => []
  | (s, c, i) :: t => if s = sig then t else (s, c, i) :: removeSig sig t

/-- Process-wide broker-facing state: the `_active_connections` class
attribute plus the transport side effects we track (fresh connection and
channel ids handed out, and which ones have had `close()` called). -/
structure Registry where
  active_connections : List (Sig × Nat × Nat)
  nextConn : Nat
  closedConns : List Nat
  nextChan : Nat
  closedChans : List Nat
deriving DecidableEq

/-- State at process start: no connection has ever been opened. -/
def Registry.empty : Registry := ⟨[], 0, [], 0, []⟩

/-- An `AMQPConnection` instance: its `connection_signature`, its
`connection` attribute (`None` when messaging is disabled), its `enabled`
flag, the `_channels` list, and the lazily cached `_channel` of the
`channel` property (absent until first access). -/
structure AMQPConnection where
  connection_signature : Sig
  connection : Option Nat
  enabled : Bool
  channels : List Nat
  cachedChannel : Option (Option Nat)
deriving DecidableEq

/-- Body of `AMQPConnection.__init__` once the connection signature has been
computed: when messaging is enabled, either create a fresh physical
connection with retain count 1 or bump the retain count of the existing
entry; when disabled, touch nothing and leave `connection = None`. -/
def AMQPConnection.initSig (enableMQ : Bool) (sig : Sig) (r : Registry) :
    AMQPConnection × Registry :=
  if enableMQ then
    match lookupSig sig r.active_connections with
    | none =>
        (⟨sig, some r.nextConn, true, [], none⟩,
         { r with
            active_connections := r.active_connections ++ [(sig, 1, r.nextConn)],
            nextConn := r.nextConn + 1 })
    | some (c, i) =>
        (⟨sig, some i, true, [], none⟩,
         { r with active_connections := setRefcount sig (c + 1) r.active_connections })
  else
    (⟨sig, none, false, [], none⟩, r)

/-- Model of `AMQPConnection.close`: close every channel in `_channels`,
then, if enabled, decrement the retain count of the signature's registry
entry; at zero, close the physical connection and delete the entry.  The
code indexes `_active_connections[self.connection_signature]` without
checking presence, so a missing entry is a `KeyError`, modelled as `none`. -/
def AMQPConnection.close (conn : AMQPConnection) (r : Registry) : Option Registry :=
  let r := { r with closedChans := r.closedChans ++ conn.channels }
  if conn.enabled then
    match lookupSig conn.connection_signature r.active_connections, conn.connection with
    | some (c, _), some pc =>
        if c - 1 = 0 then
          some { r with
                  active_connections := removeSig conn.connection_signature r.active_connections,
                  closedConns := r.closedConns ++ [pc] }
        else
          some { r with
                  active_connections :=
                    setRefcount conn.connection_signature (c - 1) r.active_connections }
    | _, _ => none
  else
    some r

/-- Model of `AMQPConnection.new_channel`: when enabled, obtain a fresh
channel from the physical connection and record it in `_channels`; when
disabled, return `None`. -/
def AMQPConnection.new_channel (conn : AMQPConnection) (r : Registry) :
    Option Nat × AMQPConnection × Registry :=
  if conn.enabled then
    (some r.nextChan,
     { conn with channels := conn.channels ++ [r.nextChan] },
     { r with nextChan := r.nextChan + 1 })
  else
    (none, conn, r)

/-- Model of the `AMQPConnection.channel` property: create and cache a
default channel on first access, return the cached one afterwards. -/
def AMQPConnection.channel (conn : AMQPConnection) (r : Registry) :
    Option Nat × AMQPConnection × Registry :=
  match conn.cachedChannel with
  | some ch => (ch, conn, r)
  | none =>
      let out := conn.new_channel r
      (out.1, { out.2.1 with cachedChannel := some out.1 }, out.2.2)

/-- Model of `Publisher.basic_publish`: if the channel is `None` (messaging
disabled) return immediately without publishing; otherwise append the
message to the channel's publish log. -/
def Publisher.basic_publish (channel : Option Nat) (exchange routing_key body : String)
    (published : List (Nat × String × String × String)) :
    List (Nat × String × String × String) :=
  match channel with
  | none => published
  | some ch => published ++ [(ch, exchange, routing_key, body)]

/-- Construct `n` AMQPConnection handles against the same signature, one
after the other, returning the final registry state. -/
def AMQPConnection.initN (enableMQ : Bool) (sig : Sig) : Nat → Registry → Registry
  | 0, r => r
  | n + 1, r => AMQPConnection.initN enableMQ sig n (AMQPConnection.initSig enableMQ sig r).2

/-- Call `close()` `n` times (each time on a handle equal to `conn`),
stopping with `none` if any close raises. -/
def AMQPConnection.closeN (conn : AMQPConnection) : Nat → Registry → Option Registry
  | 0, r => some r
  | n + 1, r =>
      match conn.close r with
      | some r' => AMQPConnection.closeN conn n r'
      | none => none

/-! Lemmas about repeated construction and close against one signature. -/

/-- Registry holding exactly one entry for `sig` with retain count `c`, the
shape produced by constructing handles for `sig` starting from the empty
registry (the physical connection got id 0). -/
def singleReg (sig : Sig) (c : Nat) : Registry := ⟨[(sig, c, 0)], 1, [], 0, []⟩

/-- Handle returned by the first construction against `sig` from the empty
registry. -/
def firstHandle (sig : Sig) : AMQPConnection := ⟨sig, some 0, true, [], none⟩

/-- Well-formedness of the registry: signatures are unique keys, the
physical connection ids of distinct entries are distinct, and every stored
id was drawn from the fresh-id counter. These hold at process start and
are preserved by construction. -/
def RegistryWF (r : Registry) : Prop :=
  (r.active_connections.map (fun e => e.1)).Nodup ∧
  (r.active_connections.map (fun e => e.2.2)).Nodup ∧
  ∀ e ∈ r.active_connections, e.2.2 < r.nextConn

/-! Model of `AMQPConnection._connection_signature` (connection.py). -/

/-- Lexicographic code-point comparison of character lists, the order
Python uses when comparing the string keys of the signature dictionary. -/
def keyLe : List Char → List Char → Bool
  | [], _ => true
  | _ :: _, [] => false
  | a :: as, b :: bs => if a = b then keyLe as bs else decide (a.toNat < b.toNat)

/-- Order on dictionary items used by the sort in
`_connection_signature`: compare the keys only
(`lambda x, y: cmp(x[0], y[0])`). -/
def sigPairLe (a b : String × PyVal) : Prop := keyLe a.1.data b.1.data = true

instance : DecidableRel sigPairLe := fun a b => by
  unfold sigPairLe
  infer_instance

/-- Django settings object as consulted by hare through `getattr` with
defaults: an absent attribute is `none`. -/
structure Settings where
  ENABLE_MQ : Option Bool
  AMQP_HOST : Option String
  AMQP_USER : Option String
  AMQP_PASSWORD : Option String
  AMQP_VHOST : Option String

/-- Keyword arguments of `AMQPConnection.__init__`: the named parameters
(`none` when not supplied), `insist` (default `False`), and the remaining
keyword arguments as a dictionary of distinct keys. -/
structure ConnKwargs where
  host : Option String
  user : Option String
  password : Option String
  vhost : Option String
  insist : Bool
  extra : List (String × PyVal)
deriving DecidableEq

/-- Effective host after applying the settings default. -/
def effective_host (st : Settings) (p : ConnKwargs) : String :=
  p.host.getD (st.AMQP_HOST.getD "localhost:5672")

/-- Effective user after applying the settings default. -/
def effective_user (st : Settings) (p : ConnKwargs) : String :=
  p.user.getD (st.AMQP_USER.getD "guest")

/-- Effective password after applying the settings default. -/
def effective_password (st : Settings) (p : ConnKwargs) : String :=
  p.password.getD (st.AMQP_PASSWORD.getD "guest")

/-- Effective virtual host after applying the settings default. -/
def effective_vhost (st : Settings) (p : ConnKwargs) : String :=
  p.vhost.getD (st.AMQP_VHOST.getD "/")

/-- Dictionary update of a single key (`kwargs[k] = v`): overwrite the
value if the key is present, append the pair otherwise. -/
def upsert (k : String) (v : PyVal) : List (String × PyVal) → List (String × PyVal)
  | [] => [(k, v)]
  | (k', v') :: t => if k' = k then (k, v) :: t else (k', v') :: upsert k v t

/-- Model of `AMQPConnection._connection_signature`: fill the defaults,
update the keyword dictionary with the five fixed keys, and return the
items sorted by key. -/
def connSignature (st : Settings) (p : ConnKwargs) : Sig :=
  List.insertionSort sigPairLe
    (upsert "insist" (PyVal.bool p.insist)
      (upsert "virtual_host" (PyVal.str (effective_vhost st p))
        (upsert "password" (PyVal.str (effective_password st p))
          (upsert "userid" (PyVal.str (effective_user st p))
            (upsert "host" (PyVal.str (effective_host st p)) p.extra)))))

/-- Model of `AMQPConnection.__init__`: compute the connection signature
from the keyword arguments, then construct against the registry (a no-op
when `ENABLE_MQ` is absent or false). -/
def AMQPConnection.init (st : Settings) (p : ConnKwargs) (r : Registry) :
    AMQPConnection × Registry :=
  AMQPConnection.initSig (st.ENABLE_MQ.getD false) (connSignature st p) r

/-! C4: behaviour of a double close. -/

/-- Signature used in the double-close scenario. -/
def c4sig : Sig := [("host", PyVal.str "localhost:5672")]

/-- First of the two handles constructed against `c4sig`. -/
def c4handle : AMQPConnection := (AMQPConnection.initSig true c4sig Registry.empty).1

/-- Registry after both handles have been constructed. -/
def c4reg2 : Registry :=
  (AMQPConnection.initSig true c4sig (AMQPConnection.initSig true c4sig Registry.empty).2).2

/-- Strict version of the key order, total on lists with distinct keys. -/
def sigPairLt (a b : String × PyVal) : Prop := sigPairLe a b ∧ a.1 ≠ b.1

/-- Keys reserved by `_connection_signature`: the dictionary update always
overwrites these five. -/
def reservedKeys : List String := ["host", "userid", "password", "virtual_host", "insist"]

/-- The five fixed items written into the keyword dictionary by
`kwargs.update` in `_connection_signature`. -/
def fixedPairs (st : Settings) (p : ConnKwargs) : List (String × PyVal) :=
  [("host", PyVal.str (effective_host st p)),
   ("userid", PyVal.str (effective_user st p)),
   ("password", PyVal.str (effective_password st p)),
   ("virtual_host", PyVal.str (effective_vhost st p)),
   ("insist", PyVal.bool p.insist)]

/-- Well-formedness of the leftover keyword arguments as a Python dict
whose keys do not collide with the five reserved keys: keys are distinct
and none is reserved. -/
def ExtraWF (extra : List (String × PyVal)) : Prop :=
  (extra.map (fun e => e.1)).Nodup ∧ ∀ e ∈ extra, e.1 ∉ reservedKeys

/-! Model of `ConsumerProcess.run` (consumer_process.py). -/

/-- Outcome of the user-supplied `process_message` on one message: normal
return, `NotImplementedError` (the subclass hook was not overridden), or
any other exception. -/
inductive ProcOutcome where
  | ok
  | notImplemented
  | failure
deriving DecidableEq

/-- Side effects of one `run` invocation: which messages had their
traceback logged and mailed to the admins, and which were acknowledged. -/
structure RunState where
  reported : List Nat
  acked : List Nat
deriving DecidableEq

/-- How the `run` loop ended. -/
inductive RunExit where
  | finished
  | raisedNotImplemented
  | raisedFailure
deriving DecidableEq

/-- Loop body of `ConsumerProcess.run` over the messages the iterator
yields: on success auto-acknowledge (when `auto_ack`); on
`NotImplementedError` re-raise immediately; on any other exception log and
mail the traceback, then continue when fault tolerant and re-raise
otherwise. -/
def ConsumerProcess.runAux (proc : Nat → ProcOutcome) (fault_tolerant auto_ack : Bool) :
    List Nat → RunState → RunState × RunExit
  | [], s => (s, .finished)
  | m :: rest, s =>
      match proc m with
      | .ok =>
          ConsumerProcess.runAux proc fault_tolerant auto_ack rest
            (if auto_ack then { s with acked := s.acked ++ [m] } else s)
      | .notImplemented => (s, .raisedNotImplemented)
      | .failure =>
          if fault_tolerant then
            ConsumerProcess.runAux proc fault_tolerant auto_ack rest
              { s with reported := s.reported ++ [m] }
          else
            ({ s with reported := s.reported ++ [m] }, .raisedFailure)

/-- Model of `ConsumerProcess.run`, starting with nothing reported or
acknowledged. -/
def ConsumerProcess.run (proc : Nat → ProcOutcome) (fault_tolerant auto_ack : Bool)
    (msgs : List Nat) : RunState × RunExit :=
  ConsumerProcess.runAux proc fault_tolerant auto_ack msgs ⟨[], []⟩

/-! Model of the consume loop of `Consumer.message_iterator`
(consumer.py): the iteration counter is incremented and checked against
the limit before waiting for the next message, and the `finally` block
always cancels the subscription. -/

/-- Messages yielded by the loop, starting from the given iteration count,
when the broker delivers the `incoming` stream one message per
`channel.wait()`. -/
def messageLoop (limit : Option Nat) : Nat → List Nat → List Nat
  | _, [] => []
  | iterations, m :: rest =>
      if (match limit with
          | some n => decide (iterations + 1 ≥ n)
          | none => false) then []
      else m :: messageLoop limit (iterations + 1) rest

/-- Observable outcome of one `message_iterator` generator run. -/
structure IterResult where
  yielded : List Nat
  cancelledTag : Option Nat
deriving DecidableEq

/-- Model of `Consumer.message_iterator`: `tag` is the consumer tag
returned by `basic_consume`; the `finally` block invokes `basic_cancel`
with that tag on every exit path of the loop. -/
def Consumer.message_iterator (tag : Nat) (limit : Option Nat) (incoming : List Nat) :
    IterResult :=
  { yielded := messageLoop limit 0 incoming,
    cancelledTag := some tag }

/-! Model of `Consumer.__init__` queue declaration (consumer.py):
`_declared_queues` is class-level state shared by every Consumer in the
process. -/

/-- Process-wide consumer state: the shared `_declared_queues` list plus
logs of the `queue_declare` and `queue_bind` calls issued. -/
structure ConsumerState where
  declared_queues : List String
  declareCalls : List String
  bindCalls : List (String × String × String)
deriving DecidableEq

/-- Model of the declaration part of `Consumer.__init__`: when the queue
name is not yet recorded, declare and bind it (unless `force_no_declare`;
the `assert` on a missing exchange is modelled as `none`), and record the
name either way; when already recorded, do nothing at all. -/
def Consumer.init (queue : String) (exchange : Option String) (routing_key : Option String)
    (force_no_declare : Bool) (s : ConsumerState) : Option ConsumerState :=
  if queue ∈ s.declared_queues then some s
  else if force_no_declare then
    some { s with declared_queues := s.declared_queues ++ [queue] }
  else
    match exchange with
    | none => none
    | some ex =>
        some { s with
                declareCalls := s.declareCalls ++ [queue],
                bindCalls := s.bindCalls ++ [(queue, ex, routing_key.getD "")],
                declared_queues := s.declared_queues ++ [queue] }

/-! Model of the single-slot handoff inside `Consumer.message_iterator`
(consumer.py). The callback class stores the incoming message in
`message_available.result` after blocking on the `waiting` event; the
consumer loop clears `waiting` while it yields the message onward and only
then deletes the result, clears `message_available` and sets `waiting`
again. Producer and consumer steps are modelled as a transition system so
deliveries and pulls can interleave arbitrarily, subject to the claim's
single-in-flight constraint on deliveries. -/

/-- Position of the consumer loop: between messages (`ready`), or past
`waiting.clear()` with the message handed to application code and the
locks not yet reset (`yielding`). -/
inductive Phase where
  | ready
  | yielding
deriving DecidableEq

/-- State of the handoff: the slot (`message_available.result`), the two
events, the consumer position, and ghost logs of the messages delivered by
the transport and yielded by the generator. -/
structure HandoffState where
  slot : Option Nat
  messageAvailable : Bool
  waiting : Bool
  phase : Phase
  delivered : List Nat
  yielded : List Nat
deriving DecidableEq

/-- State when the iterator starts: empty slot, `message_available`
cleared, `waiting` set. -/
def initHandoff : HandoffState :=
  { slot := none, messageAvailable := false, waiting := true, phase := Phase.ready,
    delivered := [], yielded := [] }

/-- Actions of the two sides: the producer callback invoked by the
transport with a new message, and the two halves of one consumer pull. -/
inductive HAction where
  | deliver (m : Nat)
  | takeBegin
  | takeEnd
deriving DecidableEq

/-- One transition. `deliver` is the callback body (blocks until `waiting`
is set, then fills the slot and sets `message_available`); the conjunct
`!s.messageAvailable` in its guard is the single-in-flight constraint the
claim imposes on delivery interleavings. `takeBegin` is the consumer
observing `message_available`, clearing `waiting` and yielding the slotted
message; `takeEnd` is the consumer resuming, deleting the result, clearing
`message_available` and setting `waiting`. Unenabled actions return
`none`. -/
def hstep (s : HandoffState) : HAction → Option HandoffState
  | HAction.deliver m =>
      if s.waiting && !s.messageAvailable then
        some { s with slot := some m, messageAvailable := true,
                      delivered := s.delivered ++ [m] }
      else none
  | HAction.takeBegin =>
      match s.phase, s.messageAvailable, s.slot with
      | Phase.ready, true, some m =>
          some { s with waiting := false, phase := Phase.yielding,
                        yielded := s.yielded ++ [m] }
      | _, _, _ => none
  | HAction.takeEnd =>
      match s.phase with
      | Phase.yielding =>
          some { s with slot := none, messageAvailable := false,
                        waiting := true, phase := Phase.ready }
      | Phase.ready => none

/-- Run a sequence of actions from a state; `none` if any action fires
while unenabled. -/
def hrun : HandoffState → List HAction → Option HandoffState
  | s, [] => some s
  | s, a :: tr =>
      match hstep s a with
      | some s' => hrun s' tr
      | none => none

/-- Handoff invariant: between messages the events track the slot exactly
— either nothing is in flight (slot empty, logs equal) or exactly the one
message most recently delivered sits unconsumed in the slot; while the
consumer is yielding, `waiting` is cleared, the slotted message has just
been yielded, and the logs are equal. -/
def HandoffInv (s : HandoffState) : Prop :=
  match s.phase with
  | Phase.ready =>
      s.waiting = true ∧
      (if s.messageAvailable then
        ∃ m, s.slot = some m ∧ s.delivered = s.yielded ++ [m]
       else s.slot = none ∧ s.delivered = s.yielded)
  | Phase.yielding =>
      s.waiting = false ∧ s.messageAvailable = true ∧
      ∃ m, s.slot = some m ∧ s.delivered = s.yielded

/-! Theorems. -/

theorem initSig_empty (sig : Sig) :
    AMQPConnection.initSig true sig Registry.empty = (firstHandle sig, singleReg sig 1) := by
  simp [AMQPConnection.initSig, Registry.empty, lookupSig, singleReg, firstHandle]

theorem initSig_single (sig : Sig) (c : Nat) :
    AMQPConnection.initSig true sig (singleReg sig c) = (firstHandle sig, singleReg sig (c + 1)) := by
  simp [AMQPConnection.initSig, singleReg, lookupSig, setRefcount, firstHandle]

theorem initN_single (sig : Sig) :
    ∀ n c, AMQPConnection.initN true sig n (singleReg sig c) = singleReg sig (c + n) := by
  intro n
  induction n with
  | zero => intro c; simp [AMQPConnection.initN]
  | succ m ih =>
      intro c
      rw [AMQPConnection.initN, initSig_single, ih]
      congr 1
      omega

theorem initN_empty (sig : Sig) (n : Nat) (h : 1 ≤ n) :
    AMQPConnection.initN true sig n Registry.empty = singleReg sig n := by
  obtain ⟨m, rfl⟩ : ∃ m, n = m + 1 := ⟨n - 1, by omega⟩
  rw [AMQPConnection.initN, initSig_empty, initN_single]
  congr 1
  omega

theorem close_single_pos (sig : Sig) (c : Nat) (h : 2 ≤ c) :
    (firstHandle sig).close (singleReg sig c) = some (singleReg sig (c - 1)) := by
  have hne : ¬ (c - 1 = 0) := by omega
  simp [AMQPConnection.close, firstHandle, singleReg, lookupSig, setRefcount, hne]

theorem close_single_one (sig : Sig) :
    (firstHandle sig).close (singleReg sig 1) = some ⟨[], 1, [0], 0, []⟩ := by
  simp [AMQPConnection.close, firstHandle, singleReg, lookupSig, removeSig]

theorem closeN_single (sig : Sig) :
    ∀ k c, k < c →
      AMQPConnection.closeN (firstHandle sig) k (singleReg sig c) = some (singleReg sig (c - k)) := by
  intro k
  induction k with
  | zero => intro c _; simp [AMQPConnection.closeN]
  | succ m ih =>
      intro c hc
      rw [AMQPConnection.closeN, close_single_pos sig c (by omega)]
      show AMQPConnection.closeN (firstHandle sig) m (singleReg sig (c - 1))
        = some (singleReg sig (c - (m + 1)))
      rw [ih (c - 1) (by omega)]
      have harith : c - 1 - m = c - (m + 1) := by omega
      rw [harith]

theorem closeN_single_all (sig : Sig) :
    ∀ c, 1 ≤ c →
      AMQPConnection.closeN (firstHandle sig) c (singleReg sig c) = some ⟨[], 1, [0], 0, []⟩ := by
  intro c
  induction c with
  | zero => omega
  | succ m ih =>
      intro _
      rcases Nat.eq_zero_or_pos m with hm | hm
      · subst hm
        rw [AMQPConnection.closeN, close_single_one]
        rfl
      · rw [AMQPConnection.closeN, close_single_pos sig (m + 1) (by omega)]
        simpa using ih hm

/-! Lemmas about the association list backing `_active_connections`. -/

theorem lookupSig_mem {sig : Sig} :
    ∀ {l : List (Sig × Nat × Nat)} {c i : Nat},
      lookupSig sig l = some (c, i) → (sig, c, i) ∈ l := by
  intro l
  induction l with
  | nil => intro c i h; simp [lookupSig] at h
  | cons e t ih =>
      intro c i h
      obtain ⟨s, c', i'⟩ := e
      rw [lookupSig] at h
      by_cases hs : s = sig
      · subst hs
        simp at h
        simp [h.1, h.2]
      · simp [hs] at h
        exact List.mem_cons_of_mem _ (ih h)

theorem lookupSig_eq_none {sig : Sig} :
    ∀ {l : List (Sig × Nat × Nat)}, lookupSig sig l = none → ∀ e ∈ l, e.1 ≠ sig := by
  intro l
  induction l with
  | nil => intro _ e he; simp at he
  | cons e t ih =>
      intro h f hf
      obtain ⟨s, c', i'⟩ := e
      rw [lookupSig] at h
      by_cases hs : s = sig
      · simp [hs] at h
      · rcases List.mem_cons.mp hf with hf | hf
        · subst hf; exact hs
        · exact ih (by simpa [hs] using h) f hf

theorem lookupSig_append (sig : Sig) (l₁ l₂ : List (Sig × Nat × Nat)) :
    lookupSig sig (l₁ ++ l₂)
      = match lookupSig sig l₁ with
        | some x => some x
        | none => lookupSig sig l₂ := by
  induction l₁ with
  | nil => simp [lookupSig]
  | cons e t ih =>
      obtain ⟨s, c, i⟩ := e
      by_cases hs : s = sig <;> simp [lookupSig, hs, ih]

theorem setRefcount_map_fst (sig : Sig) (c : Nat) :
    ∀ l : List (Sig × Nat × Nat),
      (setRefcount sig c l).map (fun e => e.1) = l.map (fun e => e.1) := by
  intro l
  induction l with
  | nil => rfl
  | cons e t ih =>
      obtain ⟨s, c', i⟩ := e
      by_cases hs : s = sig <;> simp [setRefcount, hs, ih]

theorem setRefcount_map_id (sig : Sig) (c : Nat) :
    ∀ l : List (Sig × Nat × Nat),
      (setRefcount sig c l).map (fun e => e.2.2) = l.map (fun e => e.2.2) := by
  intro l
  induction l with
  | nil => rfl
  | cons e t ih =>
      obtain ⟨s, c', i⟩ := e
      by_cases hs : s = sig <;> simp [setRefcount, hs, ih]

theorem lookupSig_setRefcount_self {sig : Sig} {c i : Nat} (c' : Nat) :
    ∀ {l : List (Sig × Nat × Nat)},
      lookupSig sig l = some (c, i) → lookupSig sig (setRefcount sig c' l) = some (c', i) := by
  intro l
  induction l with
  | nil => intro h; simp [lookupSig] at h
  | cons e t ih =>
      intro h
      obtain ⟨s, c'', i''⟩ := e
      rw [lookupSig] at h
      by_cases hs : s = sig
      · subst hs
        simp at h
        simp [setRefcount, lookupSig, h.2]
      · simp [hs] at h
        simp [setRefcount, lookupSig, hs, ih h]

theorem lookupSig_setRefcount_other {s sig : Sig} (hne : s ≠ sig) (c : Nat) :
    ∀ l : List (Sig × Nat × Nat),
      lookupSig s (setRefcount sig c l) = lookupSig s l := by
  intro l
  induction l with
  | nil => rfl
  | cons e t ih =>
      obtain ⟨s', c', i⟩ := e
      rw [setRefcount]
      by_cases hs : s' = sig
      · subst hs
        have h1 : ¬ (s' = s) := fun h => hne h.symm
        simp only [if_pos rfl]
        simp only [lookupSig]
        simp [h1, ih]
      · simp only [if_neg hs]
        simp only [lookupSig]
        by_cases hs2 : s' = s <;> simp [hs2, ih]

theorem registryWF_empty : RegistryWF Registry.empty := by
  refine ⟨by simp [Registry.empty], by simp [Registry.empty], ?_⟩
  intro e he
  simp [Registry.empty] at he

theorem initSig_wf {r : Registry} (hwf : RegistryWF r) (sig : Sig) :
    RegistryWF (AMQPConnection.initSig true sig r).2 := by
  obtain ⟨hkeys, hids, hbound⟩ := hwf
  rw [AMQPConnection.initSig]
  cases hlk : lookupSig sig r.active_connections with
  | none =>
      simp only [if_true]
      refine ⟨?_, ?_, ?_⟩
      · dsimp only
        simp only [List.map_append, List.map_cons, List.map_nil]
        rw [List.nodup_append]
        refine ⟨hkeys, by simp, ?_⟩
        intro a ha hb
        simp at hb
        obtain ⟨e, he, rfl⟩ := List.mem_map.mp ha
        exact (lookupSig_eq_none hlk e he) hb
      · dsimp only
        simp only [List.map_append, List.map_cons, List.map_nil]
        rw [List.nodup_append]
        refine ⟨hids, by simp, ?_⟩
        intro a ha hb
        simp at hb
        obtain ⟨e, he, rfl⟩ := List.mem_map.mp ha
        exact absurd hb (by have := hbound e he; omega)
      · intro e he
        dsimp only at he ⊢
        simp at he
        rcases he with he | he
        · have := hbound e he; simp; omega
        · simp [he]
  | some ci =>
      obtain ⟨c, i⟩ := ci
      simp only [if_true]
      refine ⟨?_, ?_, ?_⟩
      · simpa [setRefcount_map_fst] using hkeys
      · simpa [setRefcount_map_id] using hids
      · intro e he
        have : e.2.2 ∈ (setRefcount sig (c + 1) r.active_connections).map (fun e => e.2.2) :=
          List.mem_map.mpr ⟨e, he, rfl⟩
        rw [setRefcount_map_id] at this
        obtain ⟨e', he', heq⟩ := List.mem_map.mp this
        simpa [← heq] using hbound e' he'

/-- C2: for every N ≥ 1, after constructing N handles against the same
signature from a fresh registry, the entry carries retain count N; any
k < N closes leave the entry present with retain count exactly N − k (each
close decrementing by exactly 1) and never invoke the physical
connection's close; the Nth close drives the count to 0, closes the
physical connection (id 0 lands in the closed log) and removes the entry
from the map. -/
theorem refcount_shared_connection (sig : Sig) (N k : Nat) (hN : 1 ≤ N) (hk : k < N) :
    lookupSig sig (AMQPConnection.initN true sig N Registry.empty).active_connections
        = some (N, 0) ∧
    AMQPConnection.closeN (AMQPConnection.initSig true sig Registry.empty).1 k
        (AMQPConnection.initN true sig N Registry.empty) = some (singleReg sig (N - k)) ∧
    lookupSig sig (singleReg sig (N - k)).active_connections = some (N - k, 0) ∧
    (singleReg sig (N - k)).closedConns = [] ∧
    AMQPConnection.closeN (AMQPConnection.initSig true sig Registry.empty).1 N
        (AMQPConnection.initN true sig N Registry.empty)
      = some ⟨[], 1, [0], 0, []⟩ := by
  have hfst : (AMQPConnection.initSig true sig Registry.empty).1 = firstHandle sig := by
    rw [initSig_empty]
  rw [initN_empty sig N hN, hfst]
  refine ⟨by simp [singleReg, lookupSig], closeN_single sig k N hk,
    by simp [singleReg, lookupSig], rfl, closeN_single_all sig N hN⟩

/-- Witness for C2 at concrete inputs N = 3, k = 2. -/
theorem refcount_shared_connection_witness :
    (1 ≤ 3 ∧ 2 < 3) ∧
    (lookupSig [("host", PyVal.str "h")]
        (AMQPConnection.initN true [("host", PyVal.str "h")] 3
          Registry.empty).active_connections = some (3, 0) ∧
     AMQPConnection.closeN
        (AMQPConnection.initSig true [("host", PyVal.str "h")] Registry.empty).1 2
        (AMQPConnection.initN true [("host", PyVal.str "h")] 3 Registry.empty)
        = some (singleReg [("host", PyVal.str "h")] (3 - 2)) ∧
     lookupSig [("host", PyVal.str "h")]
        (singleReg [("host", PyVal.str "h")] (3 - 2)).active_connections = some (3 - 2, 0) ∧
     (singleReg [("host", PyVal.str "h")] (3 - 2)).closedConns = [] ∧
     AMQPConnection.closeN
        (AMQPConnection.initSig true [("host", PyVal.str "h")] Registry.empty).1 3
        (AMQPConnection.initN true [("host", PyVal.str "h")] 3 Registry.empty)
        = some ⟨[], 1, [0], 0, []⟩) :=
  ⟨⟨by decide, by decide⟩,
   refcount_shared_connection [("host", PyVal.str "h")] 3 2 (by decide) (by decide)⟩

/-- Unfolding of construction when no entry exists for the signature. -/
theorem initSig_true_none {sig : Sig} {r : Registry}
    (h : lookupSig sig r.active_connections = none) :
    AMQPConnection.initSig true sig r =
      (⟨sig, some r.nextConn, true, [], none⟩,
       { r with
          active_connections := r.active_connections ++ [(sig, 1, r.nextConn)],
          nextConn := r.nextConn + 1 }) := by
  rw [AMQPConnection.initSig]
  simp only [if_true]
  rw [h]

/-- Unfolding of construction when an entry already exists for the
signature: the existing physical connection is shared. -/
theorem initSig_true_some {sig : Sig} {r : Registry} {c i : Nat}
    (h : lookupSig sig r.active_connections = some (c, i)) :
    AMQPConnection.initSig true sig r =
      (⟨sig, some i, true, [], none⟩,
       { r with active_connections := setRefcount sig (c + 1) r.active_connections }) := by
  rw [AMQPConnection.initSig]
  simp only [if_true]
  rw [h]

/-- C3: identity-map property. Two constructions performed one after the
other on a well-formed registry share the same physical connection object
exactly when their normalized connection signatures are equal, and get
distinct physical connections when the signatures differ. -/
theorem identity_map_property (r : Registry) (sig1 sig2 : Sig) (hwf : RegistryWF r) :
    (sig1 = sig2 →
      (AMQPConnection.initSig true sig1 r).1.connection
        = (AMQPConnection.initSig true sig2 (AMQPConnection.initSig true sig1 r).2).1.connection) ∧
    (sig1 ≠ sig2 →
      (AMQPConnection.initSig true sig1 r).1.connection
        ≠ (AMQPConnection.initSig true sig2 (AMQPConnection.initSig true sig1 r).2).1.connection) := by
  obtain ⟨hkeys, hids, hbound⟩ := hwf
  constructor
  · rintro rfl
    cases hlk : lookupSig sig1 r.active_connections with
    | none =>
        rw [initSig_true_none hlk]
        have h2 : lookupSig sig1
            ({ r with
                active_connections := r.active_connections ++ [(sig1, 1, r.nextConn)],
                nextConn := r.nextConn + 1 } : Registry).active_connections
            = some (1, r.nextConn) := by
          dsimp only
          rw [lookupSig_append, hlk]
          simp [lookupSig]
        rw [initSig_true_some h2]
    | some ci =>
        obtain ⟨c, i⟩ := ci
        rw [initSig_true_some hlk]
        have h2 : lookupSig sig1
            ({ r with
                active_connections := setRefcount sig1 (c + 1) r.active_connections } :
              Registry).active_connections = some (c + 1, i) := by
          dsimp only
          exact lookupSig_setRefcount_self (c + 1) hlk
        rw [initSig_true_some h2]
  · intro hne
    cases hlk : lookupSig sig1 r.active_connections with
    | none =>
        rw [initSig_true_none hlk]
        have happ : lookupSig sig2 (r.active_connections ++ [(sig1, 1, r.nextConn)])
            = lookupSig sig2 r.active_connections := by
          rw [lookupSig_append]
          cases h : lookupSig sig2 r.active_connections with
          | none => simp [lookupSig, hne]
          | some x => simp
        cases h2 : lookupSig sig2 r.active_connections with
        | none =>
            have hl : lookupSig sig2
                ({ r with
                    active_connections := r.active_connections ++ [(sig1, 1, r.nextConn)],
                    nextConn := r.nextConn + 1 } : Registry).active_connections = none := by
              dsimp only
              rw [happ, h2]
            rw [initSig_true_none hl]
            simp
        | some ci =>
            obtain ⟨c2, i2⟩ := ci
            have hl : lookupSig sig2
                ({ r with
                    active_connections := r.active_connections ++ [(sig1, 1, r.nextConn)],
                    nextConn := r.nextConn + 1 } : Registry).active_connections
                = some (c2, i2) := by
              dsimp only
              rw [happ, h2]
            rw [initSig_true_some hl]
            have hb := hbound _ (lookupSig_mem h2)
            simp only [AMQPConnection.mk.injEq] at hb ⊢
            simp at hb ⊢
            omega
    | some ci =>
        obtain ⟨c1, i1⟩ := ci
        rw [initSig_true_some hlk]
        have hother : lookupSig sig2 (setRefcount sig1 (c1 + 1) r.active_connections)
            = lookupSig sig2 r.active_connections :=
          lookupSig_setRefcount_other (fun h => hne h.symm) _ _
        cases h2 : lookupSig sig2 r.active_connections with
        | none =>
            have hl : lookupSig sig2
                ({ r with
                    active_connections := setRefcount sig1 (c1 + 1) r.active_connections } :
                  Registry).active_connections = none := by
              dsimp only
              rw [hother, h2]
            rw [initSig_true_none hl]
            have hb := hbound _ (lookupSig_mem hlk)
            simp at hb ⊢
            omega
        | some ci2 =>
            obtain ⟨c2, i2⟩ := ci2
            have hl : lookupSig sig2
                ({ r with
                    active_connections := setRefcount sig1 (c1 + 1) r.active_connections } :
                  Registry).active_connections = some (c2, i2) := by
              dsimp only
              rw [hother, h2]
            rw [initSig_true_some hl]
            intro hcontra
            simp at hcontra
            have heq : ((sig1, c1, i1) : Sig × Nat × Nat) = (sig2, c2, i2) :=
              List.inj_on_of_nodup_map hids (lookupSig_mem hlk) (lookupSig_mem h2)
                (by simpa using hcontra)
            exact hne (by simpa using congrArg Prod.fst heq)

/-- Witness for C3 at concrete inputs: the empty registry with the two host
signatures of the identity-map test. -/
theorem identity_map_property_witness :
    RegistryWF Registry.empty ∧
    (([("host", PyVal.str "localhost:5672")] : Sig) = [("host", PyVal.str "localhost:5672")] →
      (AMQPConnection.initSig true [("host", PyVal.str "localhost:5672")] Registry.empty).1.connection
        = (AMQPConnection.initSig true [("host", PyVal.str "localhost:5672")]
            (AMQPConnection.initSig true [("host", PyVal.str "localhost:5672")]
              Registry.empty).2).1.connection) ∧
    (([("host", PyVal.str "localhost:5672")] : Sig) ≠ [("host", PyVal.str "127.0.0.1:5672")] →
      (AMQPConnection.initSig true [("host", PyVal.str "localhost:5672")] Registry.empty).1.connection
        ≠ (AMQPConnection.initSig true [("host", PyVal.str "127.0.0.1:5672")]
            (AMQPConnection.initSig true [("host", PyVal.str "localhost:5672")]
              Registry.empty).2).1.connection) :=
  ⟨registryWF_empty,
   (identity_map_property Registry.empty [("host", PyVal.str "localhost:5672")]
      [("host", PyVal.str "localhost:5672")] registryWF_empty).1,
   (identity_map_property Registry.empty [("host", PyVal.str "localhost:5672")]
      [("host", PyVal.str "127.0.0.1:5672")] registryWF_empty).2⟩

/-- C4 fails on the code: with two handles outstanding against one
signature (retain count 2), closing the same handle twice decrements the
retain count twice, so the second close drives it to 0, closes the shared
physical connection (id 0) and removes the entry while the other handle is
still open; a further close on the now-missing entry raises KeyError
(modelled as `none`). -/
theorem double_close_decrements_twice :
    lookupSig c4sig c4reg2.active_connections = some (2, 0) ∧
    (c4handle.close c4reg2).map (fun r => lookupSig c4sig r.active_connections)
      = some (some (1, 0)) ∧
    ((c4handle.close c4reg2).bind (fun r => c4handle.close r)).map
        (fun r => (lookupSig c4sig r.active_connections, r.closedConns))
      = some (none, [0]) ∧
    (((c4handle.close c4reg2).bind (fun r => c4handle.close r)).bind
        (fun r => c4handle.close r)) = none := by
  decide

/-- C5: with messaging disabled, construction touches neither the registry
nor the broker and leaves `connection = None`; `new_channel()` returns
`None` and changes nothing; the `channel` property is `None`; `close()`
performs no registry or connection operation; and `basic_publish` returns
without publishing. -/
theorem disabled_mode_no_ops (st : Settings) (p : ConnKwargs) (r : Registry)
    (hmq : st.ENABLE_MQ.getD false = false) :
    (AMQPConnection.init st p r).2 = r ∧
    (AMQPConnection.init st p r).1.connection = none ∧
    (AMQPConnection.init st p r).1.enabled = false ∧
    (AMQPConnection.init st p r).1.new_channel r = (none, (AMQPConnection.init st p r).1, r) ∧
    ((AMQPConnection.init st p r).1.channel r).1 = none ∧
    (AMQPConnection.init st p r).1.close r = some r ∧
    (∀ ex rk body log,
      Publisher.basic_publish ((AMQPConnection.init st p r).1.channel r).1 ex rk body log
        = log) := by
  have hinit : AMQPConnection.init st p r
      = (⟨connSignature st p, none, false, [], none⟩, r) := by
    rw [AMQPConnection.init, hmq, AMQPConnection.initSig]
    simp
  rw [hinit]
  refine ⟨rfl, rfl, rfl, ?_, ?_, ?_, ?_⟩
  · rw [AMQPConnection.new_channel]
    simp
  · rw [AMQPConnection.channel]
    simp [AMQPConnection.new_channel]
  · rw [AMQPConnection.close]
    simp
  · intro ex rk body log
    rw [AMQPConnection.channel]
    simp [AMQPConnection.new_channel, Publisher.basic_publish]

/-- Witness for C5 at concrete inputs: settings with `ENABLE_MQ` absent,
default keyword arguments, empty registry. -/
theorem disabled_mode_no_ops_witness :
    ((⟨none, none, none, none, none⟩ : Settings).ENABLE_MQ.getD false = false) ∧
    ((AMQPConnection.init ⟨none, none, none, none, none⟩
        ⟨none, none, none, none, false, []⟩ Registry.empty).2 = Registry.empty ∧
     (AMQPConnection.init ⟨none, none, none, none, none⟩
        ⟨none, none, none, none, false, []⟩ Registry.empty).1.connection = none ∧
     (AMQPConnection.init ⟨none, none, none, none, none⟩
        ⟨none, none, none, none, false, []⟩ Registry.empty).1.enabled = false ∧
     (AMQPConnection.init ⟨none, none, none, none, none⟩
        ⟨none, none, none, none, false, []⟩ Registry.empty).1.new_channel Registry.empty
        = (none, (AMQPConnection.init ⟨none, none, none, none, none⟩
            ⟨none, none, none, none, false, []⟩ Registry.empty).1, Registry.empty) ∧
     ((AMQPConnection.init ⟨none, none, none, none, none⟩
        ⟨none, none, none, none, false, []⟩ Registry.empty).1.channel Registry.empty).1
        = none ∧
     (AMQPConnection.init ⟨none, none, none, none, none⟩
        ⟨none, none, none, none, false, []⟩ Registry.empty).1.close Registry.empty
        = some Registry.empty ∧
     (∀ ex rk body log,
        Publisher.basic_publish
          ((AMQPConnection.init ⟨none, none, none, none, none⟩
              ⟨none, none, none, none, false, []⟩ Registry.empty).1.channel
            Registry.empty).1 ex rk body log = log)) :=
  ⟨rfl,
   disabled_mode_no_ops ⟨none, none, none, none, none⟩
     ⟨none, none, none, none, false, []⟩ Registry.empty rfl⟩

/-! C6: normalization of the connection signature. -/

/-- Characters with equal code points are equal. -/
theorem char_eq_of_toNat_eq {a b : Char} (h : a.toNat = b.toNat) : a = b := by
  apply Char.ext
  exact UInt32.ext h

/-- Strings with equal character data are equal. -/
theorem string_eq_of_data_eq {a b : String} (h : a.data = b.data) : a = b := by
  cases a
  cases b
  simp only at h
  rw [h]

theorem keyLe_total : ∀ a b : List Char, keyLe a b = true ∨ keyLe b a = true := by
  intro a
  induction a with
  | nil => intro b; left; rfl
  | cons x xs ih =>
      intro b
      cases b with
      | nil => right; rfl
      | cons y ys =>
          by_cases hxy : x = y
          · subst hxy
            rcases ih ys with h | h
            · left; simp [keyLe, h]
            · right; simp [keyLe, h]
          · have hnat : x.toNat ≠ y.toNat := fun h => hxy (char_eq_of_toNat_eq h)
            have hyx : ¬ (y = x) := fun h => hxy h.symm
            rcases Nat.lt_or_ge x.toNat y.toNat with h | h
            · left; simp [keyLe, hxy, h]
            · right
              have : y.toNat < x.toNat := by omega
              simp [keyLe, hyx, this]

theorem keyLe_trans :
    ∀ a b c : List Char, keyLe a b = true → keyLe b c = true → keyLe a c = true := by
  intro a
  induction a with
  | nil => intro b c _ _; rfl
  | cons x xs ih =>
      intro b c hab hbc
      cases b with
      | nil => simp [keyLe] at hab
      | cons y ys =>
          cases c with
          | nil => simp [keyLe] at hbc
          | cons z zs =>
              by_cases hxy : x = y
              · subst hxy
                by_cases hyz : x = z
                · subst hyz
                  simp [keyLe] at hab hbc ⊢
                  exact ih ys zs hab hbc
                · simp [keyLe, hyz] at hbc ⊢
                  exact hbc
              · by_cases hyz : y = z
                · subst hyz
                  simp [keyLe, hxy] at hab ⊢
                  exact hab
                · simp [keyLe, hxy, hyz] at hab hbc
                  have hxz : x.toNat < z.toNat := by omega
                  have hxzne : ¬ (x = z) := fun h => by
                    rw [h] at hxz
                    omega
                  simp [keyLe, hxzne, hxz]

theorem keyLe_antisymm :
    ∀ a b : List Char, keyLe a b = true → keyLe b a = true → a = b := by
  intro a
  induction a with
  | nil =>
      intro b hab hba
      cases b with
      | nil => rfl
      | cons y ys => simp [keyLe] at hba
  | cons x xs ih =>
      intro b hab hba
      cases b with
      | nil => simp [keyLe] at hab
      | cons y ys =>
          by_cases hxy : x = y
          · subst hxy
            simp [keyLe] at hab hba
            rw [ih ys hab hba]
          · have hyx : ¬ (y = x) := fun h => hxy h.symm
            simp [keyLe, hxy] at hab
            simp [keyLe, hyx] at hba
            omega

instance : IsTotal (String × PyVal) sigPairLe :=
  ⟨fun a b => keyLe_total a.1.data b.1.data⟩

instance : IsTrans (String × PyVal) sigPairLe :=
  ⟨fun a b c hab hbc => keyLe_trans a.1.data b.1.data c.1.data hab hbc⟩

instance : IsAntisymm (String × PyVal) sigPairLt :=
  ⟨fun a b hab hba =>
    absurd (string_eq_of_data_eq (keyLe_antisymm a.1.data b.1.data hab.1 hba.1)) hab.2⟩

/-- Sorting by key is insensitive to the input order when keys are
distinct: the sorted dictionaries of two permuted item lists coincide. -/
theorem insertionSort_key_eq_of_perm {l₁ l₂ : List (String × PyVal)}
    (hp : l₁.Perm l₂) (hnd : (l₁.map (fun e => e.1)).Nodup) :
    List.insertionSort sigPairLe l₁ = List.insertionSort sigPairLe l₂ := by
  have p1 := List.perm_insertionSort sigPairLe l₁
  have p2 := List.perm_insertionSort sigPairLe l₂
  have s1 := List.sorted_insertionSort sigPairLe l₁
  have s2 := List.sorted_insertionSort sigPairLe l₂
  have hnd2 : (l₂.map (fun e => e.1)).Nodup := (hp.map _).nodup hnd
  have hs1 : ((List.insertionSort sigPairLe l₁).map (fun e => e.1)).Nodup :=
    ((p1.map (fun e => e.1)).symm).nodup hnd
  have hs2 : ((List.insertionSort sigPairLe l₂).map (fun e => e.1)).Nodup :=
    ((p2.map (fun e => e.1)).symm).nodup hnd2
  have hne1 : List.Pairwise (fun a b : String × PyVal => a.1 ≠ b.1)
      (List.insertionSort sigPairLe l₁) := List.pairwise_map.mp hs1
  have hne2 : List.Pairwise (fun a b : String × PyVal => a.1 ≠ b.1)
      (List.insertionSort sigPairLe l₂) := List.pairwise_map.mp hs2
  have st1 : List.Sorted sigPairLt (List.insertionSort sigPairLe l₁) :=
    List.Pairwise.imp (fun h => ⟨h.1, h.2⟩) (List.Pairwise.and s1 hne1)
  have st2 : List.Sorted sigPairLt (List.insertionSort sigPairLe l₂) :=
    List.Pairwise.imp (fun h => ⟨h.1, h.2⟩) (List.Pairwise.and s2 hne2)
  exact List.eq_of_perm_of_sorted (p1.trans (hp.trans p2.symm)) st1 st2

theorem upsert_of_not_mem {k : String} (v : PyVal) :
    ∀ {l : List (String × PyVal)}, (∀ e ∈ l, e.1 ≠ k) → upsert k v l = l ++ [(k, v)] := by
  intro l
  induction l with
  | nil => intro _; rfl
  | cons e t ih =>
      intro h
      obtain ⟨k', v'⟩ := e
      have hk : k' ≠ k := h (k', v') (by simp)
      simp [upsert, hk, ih (fun e he => h e (by simp [he]))]

/-- The updated keyword dictionary built by `_connection_signature` is the
leftover keyword arguments followed by the five fixed items. -/
theorem connSignature_eq_sort (st : Settings) (p : ConnKwargs)
    (hres : ∀ e ∈ p.extra, e.1 ∉ reservedKeys) :
    connSignature st p = List.insertionSort sigPairLe (p.extra ++ fixedPairs st p) := by
  have hof : ∀ (k : String), k ∈ reservedKeys → ∀ e ∈ p.extra, e.1 ≠ k := by
    intro k hk e he hek
    exact hres e he (hek ▸ hk)
  have h1 : upsert "host" (PyVal.str (effective_host st p)) p.extra
      = p.extra ++ [("host", PyVal.str (effective_host st p))] :=
    upsert_of_not_mem _ (hof "host" (by simp [reservedKeys]))
  have h2 : upsert "userid" (PyVal.str (effective_user st p))
        (p.extra ++ [("host", PyVal.str (effective_host st p))])
      = p.extra ++ [("host", PyVal.str (effective_host st p)),
          ("userid", PyVal.str (effective_user st p))] := by
    rw [upsert_of_not_mem]
    · simp
    · intro e he
      rcases List.mem_append.mp he with he | he
      · exact hof "userid" (by simp [reservedKeys]) e he
      · simp at he
        simp [he]
  have h3 : upsert "password" (PyVal.str (effective_password st p))
        (p.extra ++ [("host", PyVal.str (effective_host st p)),
          ("userid", PyVal.str (effective_user st p))])
      = p.extra ++ [("host", PyVal.str (effective_host st p)),
          ("userid", PyVal.str (effective_user st p)),
          ("password", PyVal.str (effective_password st p))] := by
    rw [upsert_of_not_mem]
    · simp
    · intro e he
      rcases List.mem_append.mp he with he | he
      · exact hof "password" (by simp [reservedKeys]) e he
      · simp at he
        rcases he with he | he <;> simp [he]
  have h4 : upsert "virtual_host" (PyVal.str (effective_vhost st p))
        (p.extra ++ [("host", PyVal.str (effective_host st p)),
          ("userid", PyVal.str (effective_user st p)),
          ("password", PyVal.str (effective_password st p))])
      = p.extra ++ [("host", PyVal.str (effective_host st p)),
          ("userid", PyVal.str (effective_user st p)),
          ("password", PyVal.str (effective_password st p)),
          ("virtual_host", PyVal.str (effective_vhost st p))] := by
    rw [upsert_of_not_mem]
    · simp
    · intro e he
      rcases List.mem_append.mp he with he | he
      · exact hof "virtual_host" (by simp [reservedKeys]) e he
      · simp at he
        rcases he with he | he | he <;> simp [he]
  have h5 : upsert "insist" (PyVal.bool p.insist)
        (p.extra ++ [("host", PyVal.str (effective_host st p)),
          ("userid", PyVal.str (effective_user st p)),
          ("password", PyVal.str (effective_password st p)),
          ("virtual_host", PyVal.str (effective_vhost st p))])
      = p.extra ++ fixedPairs st p := by
    rw [upsert_of_not_mem]
    · simp [fixedPairs]
    · intro e he
      rcases List.mem_append.mp he with he | he
      · exact hof "insist" (by simp [reservedKeys]) e he
      · simp at he
        rcases he with he | he | he | he <;> simp [he]
  rw [connSignature, h1, h2, h3, h4, h5]

/-- The updated keyword dictionary has distinct keys. -/
theorem dict_keys_nodup (st : Settings) (p : ConnKwargs) (hwf : ExtraWF p.extra) :
    ((p.extra ++ fixedPairs st p).map (fun e => e.1)).Nodup := by
  rw [List.map_append, List.nodup_append]
  refine ⟨hwf.1, by simp [fixedPairs], ?_⟩
  intro a ha hb
  obtain ⟨e, he, rfl⟩ := List.mem_map.mp ha
  apply hwf.2 e he
  simpa [fixedPairs, reservedKeys] using hb

/-- C6: normalization property of `_connection_signature`. For keyword
dictionaries with distinct, non-reserved extra keys, two argument sets
produce equal signature tuples exactly when all effective (default-filled)
fields agree and the extra dictionaries hold the same items — in
particular the signature does not depend on the order the extra arguments
were supplied, nor on whether a default was omitted or spelled out. -/
theorem connSignature_normalized (st : Settings) (p₁ p₂ : ConnKwargs)
    (h₁ : ExtraWF p₁.extra) (h₂ : ExtraWF p₂.extra) :
    connSignature st p₁ = connSignature st p₂ ↔
      (effective_host st p₁ = effective_host st p₂ ∧
       effective_user st p₁ = effective_user st p₂ ∧
       effective_password st p₁ = effective_password st p₂ ∧
       effective_vhost st p₁ = effective_vhost st p₂ ∧
       p₁.insist = p₂.insist ∧
       p₁.extra.Perm p₂.extra) := by
  rw [connSignature_eq_sort st p₁ h₁.2, connSignature_eq_sort st p₂ h₂.2]
  constructor
  · intro hsig
    have d1 := List.perm_insertionSort sigPairLe (p₁.extra ++ fixedPairs st p₁)
    have d2 := List.perm_insertionSort sigPairLe (p₂.extra ++ fixedPairs st p₂)
    have dictPerm : (p₁.extra ++ fixedPairs st p₁).Perm (p₂.extra ++ fixedPairs st p₂) :=
      d1.symm.trans (hsig ▸ d2)
    have hfix : ∀ kv ∈ fixedPairs st p₁, kv.1 ∈ reservedKeys → kv ∈ fixedPairs st p₂ := by
      intro kv hkv hkres
      have hm : kv ∈ p₂.extra ++ fixedPairs st p₂ :=
        dictPerm.mem_iff.mp (List.mem_append.mpr (Or.inr hkv))
      rcases List.mem_append.mp hm with hm | hm
      · exact absurd hkres (h₂.2 kv hm)
      · exact hm
    have hhost : effective_host st p₁ = effective_host st p₂ := by
      have := hfix ("host", PyVal.str (effective_host st p₁))
        (by simp [fixedPairs]) (by simp [reservedKeys])
      simpa [fixedPairs] using this
    have huser : effective_user st p₁ = effective_user st p₂ := by
      have := hfix ("userid", PyVal.str (effective_user st p₁))
        (by simp [fixedPairs]) (by simp [reservedKeys])
      simpa [fixedPairs] using this
    have hpass : effective_password st p₁ = effective_password st p₂ := by
      have := hfix ("password", PyVal.str (effective_password st p₁))
        (by simp [fixedPairs]) (by simp [reservedKeys])
      simpa [fixedPairs] using this
    have hvhost : effective_vhost st p₁ = effective_vhost st p₂ := by
      have := hfix ("virtual_host", PyVal.str (effective_vhost st p₁))
        (by simp [fixedPairs]) (by simp [reservedKeys])
      simpa [fixedPairs] using this
    have hinsist : p₁.insist = p₂.insist := by
      have := hfix ("insist", PyVal.bool p₁.insist)
        (by simp [fixedPairs]) (by simp [reservedKeys])
      simpa [fixedPairs] using this
    refine ⟨hhost, huser, hpass, hvhost, hinsist, ?_⟩
    have hfeq : fixedPairs st p₁ = fixedPairs st p₂ := by
      simp [fixedPairs, hhost, huser, hpass, hvhost, hinsist]
    rw [hfeq] at dictPerm
    exact (List.perm_append_right_iff (fixedPairs st p₂)).mp dictPerm
  · rintro ⟨hhost, huser, hpass, hvhost, hinsist, hperm⟩
    have hfeq : fixedPairs st p₁ = fixedPairs st p₂ := by
      simp [fixedPairs, hhost, huser, hpass, hvhost, hinsist]
    apply insertionSort_key_eq_of_perm
    · rw [hfeq]
      exact List.Perm.append_right _ hperm
    · exact dict_keys_nodup st p₁ h₁

/-- Witness for C6 at concrete inputs: default settings; one side omits
the host and supplies two extra arguments, the other side spells the
default host out and supplies the extra arguments in the other order. -/
theorem connSignature_normalized_witness :
    ExtraWF [("a", PyVal.str "1"), ("b", PyVal.str "2")] ∧
    ExtraWF [("b", PyVal.str "2"), ("a", PyVal.str "1")] ∧
    (connSignature ⟨some true, none, none, none, none⟩
        ⟨none, none, none, none, false, [("a", PyVal.str "1"), ("b", PyVal.str "2")]⟩
      = connSignature ⟨some true, none, none, none, none⟩
        ⟨some "localhost:5672", none, none, none, false,
          [("b", PyVal.str "2"), ("a", PyVal.str "1")]⟩ ↔
      (effective_host ⟨some true, none, none, none, none⟩
          ⟨none, none, none, none, false, [("a", PyVal.str "1"), ("b", PyVal.str "2")]⟩
        = effective_host ⟨some true, none, none, none, none⟩
          ⟨some "localhost:5672", none, none, none, false,
            [("b", PyVal.str "2"), ("a", PyVal.str "1")]⟩ ∧
       effective_user ⟨some true, none, none, none, none⟩
          ⟨none, none, none, none, false, [("a", PyVal.str "1"), ("b", PyVal.str "2")]⟩
        = effective_user ⟨some true, none, none, none, none⟩
          ⟨some "localhost:5672", none, none, none, false,
            [("b", PyVal.str "2"), ("a", PyVal.str "1")]⟩ ∧
       effective_password ⟨some true, none, none, none, none⟩
          ⟨none, none, none, none, false, [("a", PyVal.str "1"), ("b", PyVal.str "2")]⟩
        = effective_password ⟨some true, none, none, none, none⟩
          ⟨some "localhost:5672", none, none, none, false,
            [("b", PyVal.str "2"), ("a", PyVal.str "1")]⟩ ∧
       effective_vhost ⟨some true, none, none, none, none⟩
          ⟨none, none, none, none, false, [("a", PyVal.str "1"), ("b", PyVal.str "2")]⟩
        = effective_vhost ⟨some true, none, none, none, none⟩
          ⟨some "localhost:5672", none, none, none, false,
            [("b", PyVal.str "2"), ("a", PyVal.str "1")]⟩ ∧
       false = false ∧
       List.Perm [("a", PyVal.str "1"), ("b", PyVal.str "2")]
         [("b", PyVal.str "2"), ("a", PyVal.str "1")])) :=
  ⟨⟨by decide, by decide⟩, ⟨by decide, by decide⟩,
   connSignature_normalized ⟨some true, none, none, none, none⟩
     ⟨none, none, none, none, false, [("a", PyVal.str "1"), ("b", PyVal.str "2")]⟩
     ⟨some "localhost:5672", none, none, none, false,
       [("b", PyVal.str "2"), ("a", PyVal.str "1")]⟩
     ⟨by decide, by decide⟩ ⟨by decide, by decide⟩⟩

/-! Theorems about `ConsumerProcess.run`. -/

/-- Running the loop over a prefix of successfully processed messages
acknowledges them (when `auto_ack`) and continues with the rest. -/
theorem runAux_ok_segment (proc : Nat → ProcOutcome) (ft a : Bool) :
    ∀ (pre rest : List Nat) (s : RunState), (∀ x ∈ pre, proc x = ProcOutcome.ok) →
      ConsumerProcess.runAux proc ft a (pre ++ rest) s
        = ConsumerProcess.runAux proc ft a rest
            { s with acked := s.acked ++ (if a then pre else []) } := by
  intro pre
  induction pre with
  | nil =>
      intro rest s _
      simp
  | cons m t ih =>
      intro rest s h
      have hm : proc m = ProcOutcome.ok := h m (by simp)
      rw [List.cons_append, ConsumerProcess.runAux, hm]
      show ConsumerProcess.runAux proc ft a (t ++ rest)
          (if a then { s with acked := s.acked ++ [m] } else s) = _
      rw [ih rest _ (fun x hx => h x (by simp [hx]))]
      congr 1
      cases a <;> simp

/-- Running the fault-tolerant loop over a prefix free of
`NotImplementedError` reports exactly the failing messages of the prefix,
acknowledges exactly the successful ones (when `auto_ack`), and continues
with the rest. -/
theorem runAux_ft_segment (proc : Nat → ProcOutcome) (a : Bool) :
    ∀ (pre rest : List Nat) (s : RunState),
      (∀ x ∈ pre, proc x ≠ ProcOutcome.notImplemented) →
      ConsumerProcess.runAux proc true a (pre ++ rest) s
        = ConsumerProcess.runAux proc true a rest
            { reported := s.reported
                ++ pre.filter (fun m => decide (proc m = ProcOutcome.failure)),
              acked := s.acked
                ++ (if a then pre.filter (fun m => decide (proc m = ProcOutcome.ok))
                    else []) } := by
  intro pre
  induction pre with
  | nil =>
      intro rest s _
      simp
  | cons m t ih =>
      intro rest s h
      have hrest : ∀ x ∈ t, proc x ≠ ProcOutcome.notImplemented :=
        fun x hx => h x (by simp [hx])
      rw [List.cons_append, ConsumerProcess.runAux]
      cases hm : proc m with
      | ok =>
          show ConsumerProcess.runAux proc true a (t ++ rest)
              (if a then { s with acked := s.acked ++ [m] } else s) = _
          rw [ih rest _ hrest]
          congr 1
          cases a <;> simp [List.filter_cons, hm]
      | notImplemented => exact absurd hm (h m (by simp))
      | failure =>
          show ConsumerProcess.runAux proc true a (t ++ rest)
              { s with reported := s.reported ++ [m] } = _
          rw [ih rest _ hrest]
          congr 1
          cases a <;> simp [List.filter_cons, hm]

/-- C7: failure-handling policy of `ConsumerProcess.run`. In fault-tolerant
mode every message on which processing raises is reported (logged and
mailed), left unacknowledged, and the loop continues to the end of the
stream, acknowledging exactly the successfully processed messages when
`auto_ack` is set. In non-fault-tolerant mode the first failure is
reported and then propagates, terminating the loop with the remaining
messages unprocessed. -/
theorem fault_tolerance_policy (proc : Nat → ProcOutcome) (a : Bool) :
    (∀ msgs, (∀ m ∈ msgs, proc m ≠ ProcOutcome.notImplemented) →
      ConsumerProcess.run proc true a msgs
        = ({ reported := msgs.filter (fun m => decide (proc m = ProcOutcome.failure)),
             acked := if a then msgs.filter (fun m => decide (proc m = ProcOutcome.ok))
               else [] },
           RunExit.finished)) ∧
    (∀ pre m post, (∀ x ∈ pre, proc x = ProcOutcome.ok) → proc m = ProcOutcome.failure →
      ConsumerProcess.run proc false a (pre ++ m :: post)
        = ({ reported := [m], acked := if a then pre else [] },
           RunExit.raisedFailure)) := by
  constructor
  · intro msgs h
    unfold ConsumerProcess.run
    have hpre := runAux_ft_segment proc a msgs [] ⟨[], []⟩ h
    rw [List.append_nil] at hpre
    rw [hpre, ConsumerProcess.runAux]
    simp
  · intro pre m post hpre hm
    unfold ConsumerProcess.run
    rw [runAux_ok_segment proc false a pre (m :: post) ⟨[], []⟩ hpre,
      ConsumerProcess.runAux, hm]
    simp

/-- Witness for C7 at concrete inputs: the callback fails on message 5
only; stream 4, 5, 6 with auto-acknowledge on. -/
theorem fault_tolerance_policy_witness :
    ((∀ m ∈ [4, 5, 6],
        (fun m => if m = 5 then ProcOutcome.failure else ProcOutcome.ok) m
          ≠ ProcOutcome.notImplemented) ∧
     (∀ x ∈ [4],
        (fun m => if m = 5 then ProcOutcome.failure else ProcOutcome.ok) x
          = ProcOutcome.ok) ∧
     (fun m => if m = 5 then ProcOutcome.failure else ProcOutcome.ok) 5
        = ProcOutcome.failure) ∧
    ConsumerProcess.run (fun m => if m = 5 then ProcOutcome.failure else ProcOutcome.ok)
        true true [4, 5, 6]
      = ({ reported := [4, 5, 6].filter (fun m =>
              decide ((fun m => if m = 5 then ProcOutcome.failure else ProcOutcome.ok) m
                = ProcOutcome.failure)),
           acked := if true then [4, 5, 6].filter (fun m =>
              decide ((fun m => if m = 5 then ProcOutcome.failure else ProcOutcome.ok) m
                = ProcOutcome.ok)) else [] },
         RunExit.finished) ∧
    ConsumerProcess.run (fun m => if m = 5 then ProcOutcome.failure else ProcOutcome.ok)
        false true ([4] ++ 5 :: [6])
      = ({ reported := [5], acked := if true then [4] else [] },
         RunExit.raisedFailure) :=
  ⟨⟨by decide, by decide, by decide⟩,
   (fault_tolerance_policy
      (fun m => if m = 5 then ProcOutcome.failure else ProcOutcome.ok) true).1
     [4, 5, 6] (by decide),
   (fault_tolerance_policy
      (fun m => if m = 5 then ProcOutcome.failure else ProcOutcome.ok) true).2
     [4] 5 [6] (by decide) (by decide)⟩

/-- C9: a `NotImplementedError` raised by `process_message` always
propagates out of `run` and terminates the loop without being logged or
mailed, whatever the fault-tolerance flag; even in fault-tolerant mode,
where earlier plain failures are swallowed and reported, the
`NotImplementedError` itself ends the loop and never enters the report
log. -/
theorem notimplemented_always_raises (proc : Nat → ProcOutcome) (ft a : Bool) :
    (∀ pre m post, (∀ x ∈ pre, proc x = ProcOutcome.ok) →
        proc m = ProcOutcome.notImplemented →
      ConsumerProcess.run proc ft a (pre ++ m :: post)
        = ({ reported := [], acked := if a then pre else [] },
           RunExit.raisedNotImplemented)) ∧
    (∀ pre m post, (∀ x ∈ pre, proc x ≠ ProcOutcome.notImplemented) →
        proc m = ProcOutcome.notImplemented →
      ConsumerProcess.run proc true a (pre ++ m :: post)
        = ({ reported := pre.filter (fun x => decide (proc x = ProcOutcome.failure)),
             acked := if a then pre.filter (fun x => decide (proc x = ProcOutcome.ok))
               else [] },
           RunExit.raisedNotImplemented)) := by
  constructor
  · intro pre m post hpre hm
    unfold ConsumerProcess.run
    rw [runAux_ok_segment proc ft a pre (m :: post) ⟨[], []⟩ hpre,
      ConsumerProcess.runAux, hm]
    simp
  · intro pre m post hpre hm
    unfold ConsumerProcess.run
    rw [runAux_ft_segment proc a pre (m :: post) ⟨[], []⟩ hpre,
      ConsumerProcess.runAux, hm]
    simp

/-- Witness for C9 at concrete inputs: the callback raises
`NotImplementedError` on message 7 after an ok message and after a
reported failure, in fault-tolerant mode. -/
theorem notimplemented_always_raises_witness :
    ((∀ x ∈ [4],
        (fun m => if m = 7 then ProcOutcome.notImplemented
          else if m = 5 then ProcOutcome.failure else ProcOutcome.ok) x
          = ProcOutcome.ok) ∧
     (∀ x ∈ [4, 5],
        (fun m => if m = 7 then ProcOutcome.notImplemented
          else if m = 5 then ProcOutcome.failure else ProcOutcome.ok) x
          ≠ ProcOutcome.notImplemented) ∧
     (fun m => if m = 7 then ProcOutcome.notImplemented
        else if m = 5 then ProcOutcome.failure else ProcOutcome.ok) 7
        = ProcOutcome.notImplemented) ∧
    ConsumerProcess.run
        (fun m => if m = 7 then ProcOutcome.notImplemented
          else if m = 5 then ProcOutcome.failure else ProcOutcome.ok)
        true true ([4] ++ 7 :: [6])
      = ({ reported := [], acked := if true then [4] else [] },
         RunExit.raisedNotImplemented) ∧
    ConsumerProcess.run
        (fun m => if m = 7 then ProcOutcome.notImplemented
          else if m = 5 then ProcOutcome.failure else ProcOutcome.ok)
        true true ([4, 5] ++ 7 :: [6])
      = ({ reported := [4, 5].filter (fun x =>
              decide ((fun m => if m = 7 then ProcOutcome.notImplemented
                else if m = 5 then ProcOutcome.failure else ProcOutcome.ok) x
                = ProcOutcome.failure)),
           acked := if true then [4, 5].filter (fun x =>
              decide ((fun m => if m = 7 then ProcOutcome.notImplemented
                else if m = 5 then ProcOutcome.failure else ProcOutcome.ok) x
                = ProcOutcome.ok)) else [] },
         RunExit.raisedNotImplemented) :=
  ⟨⟨by decide, by decide, by decide⟩,
   (notimplemented_always_raises
      (fun m => if m = 7 then ProcOutcome.notImplemented
        else if m = 5 then ProcOutcome.failure else ProcOutcome.ok) true true).1
     [4] 7 [6] (by decide) (by decide),
   (notimplemented_always_raises
      (fun m => if m = 7 then ProcOutcome.notImplemented
        else if m = 5 then ProcOutcome.failure else ProcOutcome.ok) true true).2
     [4, 5] 7 [6] (by decide) (by decide)⟩

/-! Theorems about the iteration limit of `Consumer.message_iterator`. -/

theorem messageLoop_take (N : Nat) :
    ∀ (incoming : List Nat) (it : Nat),
      messageLoop (some N) it incoming = incoming.take (N - 1 - it) := by
  intro incoming
  induction incoming with
  | nil => intro it; simp [messageLoop]
  | cons m rest ih =>
      intro it
      rw [messageLoop]
      by_cases h : it + 1 ≥ N
      · have h0 : N - 1 - it = 0 := by omega
        simp [h, h0]
      · have h2 : N - 1 - it = (N - 1 - (it + 1)) + 1 := by omega
        simp only [ge_iff_le, decide_eq_true_eq]
        rw [if_neg (by omega), ih (it + 1), h2, List.take_succ_cons]

/-- C8: with a limit of N ≥ 1 the generator yields at most N − 1 messages
— exactly the first N − 1 of the delivered stream, because the iteration
counter is incremented and compared against the limit before each wait —
and the subscription is cancelled with the consumer tag on termination. -/
theorem message_iterator_limit (tag N : Nat) (hN : 1 ≤ N) (incoming : List Nat) :
    (Consumer.message_iterator tag (some N) incoming).yielded = incoming.take (N - 1) ∧
    (Consumer.message_iterator tag (some N) incoming).yielded.length ≤ N - 1 ∧
    (Consumer.message_iterator tag (some N) incoming).cancelledTag = some tag := by
  have hy : (Consumer.message_iterator tag (some N) incoming).yielded
      = incoming.take (N - 1) := by
    show messageLoop (some N) 0 incoming = incoming.take (N - 1)
    rw [messageLoop_take]
    simp
  refine ⟨hy, ?_, rfl⟩
  rw [hy]
  simp [List.length_take]

/-- Witness for C8 at concrete inputs: limit 3 over a four-message
stream yields only the first two messages. -/
theorem message_iterator_limit_witness :
    1 ≤ 3 ∧
    ((Consumer.message_iterator 99 (some 3) [10, 20, 30, 40]).yielded
        = [10, 20, 30, 40].take (3 - 1) ∧
     (Consumer.message_iterator 99 (some 3) [10, 20, 30, 40]).yielded.length ≤ 3 - 1 ∧
     (Consumer.message_iterator 99 (some 3) [10, 20, 30, 40]).cancelledTag = some 99) :=
  ⟨by decide, message_iterator_limit 99 3 (by decide) [10, 20, 30, 40]⟩

/-! Theorems about the once-per-process queue declaration. -/

/-- C10: the shared `_declared_queues` list makes declaration happen at
most once per queue name. A Consumer for an already-recorded queue issues
no `queue_declare` and no `queue_bind` and changes nothing, whatever its
parameters; a Consumer with `force_no_declare` declares and binds nothing
but still records the queue name, and thereby suppresses declaration by
every later Consumer of that queue. -/
theorem queue_declared_once (q : String) (s : ConsumerState) :
    (q ∈ s.declared_queues →
      ∀ ex rk f, Consumer.init q ex rk f s = some s) ∧
    (q ∉ s.declared_queues →
      ∀ ex rk, Consumer.init q ex rk true s
          = some { s with declared_queues := s.declared_queues ++ [q] } ∧
        ∀ ex' rk' f', Consumer.init q ex' rk' f'
            { s with declared_queues := s.declared_queues ++ [q] }
          = some { s with declared_queues := s.declared_queues ++ [q] }) := by
  constructor
  · intro hmem ex rk f
    simp [Consumer.init, hmem]
  · intro hmem ex rk
    constructor
    · simp [Consumer.init, hmem]
    · intro ex' rk' f'
      have : q ∈ s.declared_queues ++ [q] := by simp
      simp [Consumer.init, this]

/-- Witness for C10 at concrete inputs: fresh state, queue "q1" recorded
by a `force_no_declare` consumer, plus the already-recorded case. -/
theorem queue_declared_once_witness :
    (("q0" : String) ∈ (⟨["q0"], [], []⟩ : ConsumerState).declared_queues ∧
     ∀ ex rk f, Consumer.init "q0" ex rk f ⟨["q0"], [], []⟩ = some ⟨["q0"], [], []⟩) ∧
    (("q1" : String) ∉ (⟨[], [], []⟩ : ConsumerState).declared_queues ∧
     (Consumer.init "q1" (some "ex") none true ⟨[], [], []⟩
        = some { (⟨[], [], []⟩ : ConsumerState) with declared_queues := [] ++ ["q1"] } ∧
      ∀ ex' rk' f', Consumer.init "q1" ex' rk' f'
          { (⟨[], [], []⟩ : ConsumerState) with declared_queues := [] ++ ["q1"] }
        = some { (⟨[], [], []⟩ : ConsumerState) with declared_queues := [] ++ ["q1"] })) :=
  ⟨⟨by decide,
    (queue_declared_once "q0" ⟨["q0"], [], []⟩).1 (by decide)⟩,
   ⟨by decide,
    (queue_declared_once "q1" ⟨[], [], []⟩).2 (by decide) (some "ex") none⟩⟩

theorem initHandoff_inv : HandoffInv initHandoff := by
  simp [HandoffInv, initHandoff]

theorem hstep_inv {s s' : HandoffState} {a : HAction}
    (hinv : HandoffInv s) (hs : hstep s a = some s') : HandoffInv s' := by
  cases a with
  | deliver m =>
      rw [hstep] at hs
      cases hw : (s.waiting && !s.messageAvailable) with
      | false => rw [hw] at hs; simp at hs
      | true =>
          rw [hw] at hs
          simp at hs
          have hwait : s.waiting = true := by
            cases hwb : s.waiting
            · rw [hwb] at hw; simp at hw
            · rfl
          have hma' : s.messageAvailable = false := by
            cases hmb : s.messageAvailable
            · rfl
            · rw [hmb] at hw; simp at hw
          cases hp : s.phase with
          | yielding =>
              rw [HandoffInv, hp] at hinv
              rw [hinv.1] at hwait
              simp at hwait
          | ready =>
              rw [HandoffInv, hp] at hinv
              rw [hma'] at hinv
              simp at hinv
              rw [← hs, HandoffInv]
              simp [hp, hwait, hinv.2.1, hinv.2.2]
  | takeBegin =>
      rw [hstep] at hs
      cases hp : s.phase with
      | yielding => rw [hp] at hs; simp at hs
      | ready =>
          rw [hp] at hs
          cases hma : s.messageAvailable with
          | false => rw [hma] at hs; simp at hs
          | true =>
              rw [hma] at hs
              cases hsl : s.slot with
              | none => rw [hsl] at hs; simp at hs
              | some m =>
                  rw [hsl] at hs
                  simp at hs
                  rw [HandoffInv, hp, hma] at hinv
                  simp at hinv
                  obtain ⟨m', hm', hdel⟩ := hinv.2
                  rw [hsl] at hm'
                  simp at hm'
                  subst hm'
                  rw [← hs, HandoffInv]
                  simp [hma, hsl, hdel]
  | takeEnd =>
      rw [hstep] at hs
      cases hp : s.phase with
      | ready => rw [hp] at hs; simp at hs
      | yielding =>
          rw [hp] at hs
          simp at hs
          rw [HandoffInv, hp] at hinv
          obtain ⟨hwait, hma, m0, hm0, hdel⟩ := hinv
          rw [← hs, HandoffInv]
          simp [hdel]

theorem hrun_inv :
    ∀ (tr : List HAction) (s s' : HandoffState),
      HandoffInv s → hrun s tr = some s' → HandoffInv s' := by
  intro tr
  induction tr with
  | nil =>
      intro s s' hinv h
      rw [hrun] at h
      simp at h
      rw [← h]
      exact hinv
  | cons a tr ih =>
      intro s s' hinv h
      rw [hrun] at h
      cases ha : hstep s a with
      | none => rw [ha] at h; simp at h
      | some s1 =>
          rw [ha] at h
          exact ih s1 s' (hstep_inv hinv ha) h

/-- C1: safety of the single-slot handoff under arbitrary interleavings of
deliveries and pulls subject to the single-in-flight delivery constraint.
In every reachable state the slot is either empty (and then every
delivered message has been yielded) or holds exactly the one message
delivered but not yet consumed; a delivery can only fire when the slot is
free, so an occupied-and-unread slot is never overwritten; and the yielded
log is always a prefix of the delivered log — equal to it whenever no
message is in flight — so every delivered message is yielded exactly once,
in delivery order, with no duplication and no silent drop. -/
theorem handoff_no_loss (tr : List HAction) (s : HandoffState)
    (h : hrun initHandoff tr = some s) :
    (s.slot = none → s.delivered = s.yielded) ∧
    (∀ m, s.slot = some m → s.phase = Phase.ready → s.delivered = s.yielded ++ [m]) ∧
    (∀ m, s.slot = some m → s.phase = Phase.yielding → s.delivered = s.yielded) ∧
    (∀ m s', hstep s (HAction.deliver m) = some s' → s.slot = none) ∧
    (∃ rest, s.delivered = s.yielded ++ rest ∧ rest.length ≤ 1) ∧
    (s.messageAvailable = false → s.delivered = s.yielded) := by
  have hinv := hrun_inv tr initHandoff s initHandoff_inv h
  rw [HandoffInv] at hinv
  cases hp : s.phase with
  | ready =>
      rw [hp] at hinv
      cases hma : s.messageAvailable with
      | false =>
          rw [hma] at hinv
          simp at hinv
          refine ⟨fun _ => hinv.2.2, ?_, ?_, ?_, ⟨[], by simp [hinv.2.2], by simp⟩,
            fun _ => hinv.2.2⟩
          · intro m hm
            rw [hinv.2.1] at hm
            simp at hm
          · intro m hm
            rw [hinv.2.1] at hm
            simp at hm
          · intro m s' _
            exact hinv.2.1
      | true =>
          rw [hma] at hinv
          simp at hinv
          obtain ⟨hwait, m0, hm0, hdel⟩ := hinv
          refine ⟨?_, ?_, ?_, ?_, ⟨[m0], hdel, by simp⟩, ?_⟩
          · intro hnone
            rw [hnone] at hm0
            simp at hm0
          · intro m hm _
            rw [hm0] at hm
            simp at hm
            rw [← hm]
            exact hdel
          · intro m hm hyp
            exact absurd hyp (by decide)
          · intro m s' hs
            rw [hstep] at hs
            have hg : (s.waiting && !s.messageAvailable) = false := by
              rw [hma]
              simp
            rw [hg] at hs
            simp at hs
          · intro hfalse
            exact absurd hfalse (by decide)
  | yielding =>
      rw [hp] at hinv
      obtain ⟨hwait, hma, m0, hm0, hdel⟩ := hinv
      refine ⟨fun _ => hdel, ?_, fun m _ _ => hdel, ?_, ⟨[], by simp [hdel], by simp⟩, ?_⟩
      · intro m hm hyp
        exact absurd hyp (by decide)
      · intro m s' hs
        rw [hstep] at hs
        have hg : (s.waiting && !s.messageAvailable) = false := by
          rw [hwait]
          simp
        rw [hg] at hs
        simp at hs
      · intro hfalse
        rw [hfalse] at hma
        simp at hma

/-- Witness for C1 at a concrete trace: two deliveries with one full pull
between them; the final state holds the second message unconsumed. -/
theorem handoff_no_loss_witness :
    hrun initHandoff
        [HAction.deliver 5, HAction.takeBegin, HAction.takeEnd, HAction.deliver 7]
      = some ⟨some 7, true, true, Phase.ready, [5, 7], [5]⟩ ∧
    (((⟨some 7, true, true, Phase.ready, [5, 7], [5]⟩ : HandoffState).slot = none →
        (⟨some 7, true, true, Phase.ready, [5, 7], [5]⟩ : HandoffState).delivered
          = (⟨some 7, true, true, Phase.ready, [5, 7], [5]⟩ : HandoffState).yielded) ∧
     (∀ m, (⟨some 7, true, true, Phase.ready, [5, 7], [5]⟩ : HandoffState).slot = some m →
        (⟨some 7, true, true, Phase.ready, [5, 7], [5]⟩ : HandoffState).phase = Phase.ready →
        (⟨some 7, true, true, Phase.ready, [5, 7], [5]⟩ : HandoffState).delivered
          = (⟨some 7, true, true, Phase.ready, [5, 7], [5]⟩ : HandoffState).yielded ++ [m]) ∧
     (∀ m, (⟨some 7, true, true, Phase.ready, [5, 7], [5]⟩ : HandoffState).slot = some m →
        (⟨some 7, true, true, Phase.ready, [5, 7], [5]⟩ : HandoffState).phase = Phase.yielding →
        (⟨some 7, true, true, Phase.ready, [5, 7], [5]⟩ : HandoffState).delivered
          = (⟨some 7, true, true, Phase.ready, [5, 7], [5]⟩ : HandoffState).yielded) ∧
     (∀ m s', hstep (⟨some 7, true, true, Phase.ready, [5, 7], [5]⟩ : HandoffState)
          (HAction.deliver m) = some s' →
        (⟨some 7, true, true, Phase.ready, [5, 7], [5]⟩ : HandoffState).slot = none) ∧
     (∃ rest, (⟨some 7, true, true, Phase.ready, [5, 7], [5]⟩ : HandoffState).delivered
          = (⟨some 7, true, true, Phase.ready, [5, 7], [5]⟩ : HandoffState).yielded ++ rest ∧
        rest.length ≤ 1) ∧
     ((⟨some 7, true, true, Phase.ready, [5, 7], [5]⟩ : HandoffState).messageAvailable = false →
        (⟨some 7, true, true, Phase.ready, [5, 7], [5]⟩ : HandoffState).delivered
          = (⟨some 7, true, true, Phase.ready, [5, 7], [5]⟩ : HandoffState).yielded)) :=
  ⟨by decide,
   handoff_no_loss
     [HAction.deliver 5, HAction.takeBegin, HAction.takeEnd, HAction.deliver 7]
     ⟨some 7, true, true, Phase.ready, [5, 7], [5]⟩ (by decide)⟩
